import Mathlib

/-!
Shallow embedding of the spellcheck dictionary core of `stringmetrics-rust`
(`src/spellcheck/dictionary.rs`), together with a model of the affix engine
(`Affix`), whose source is not part of the repository snapshot and is therefore
modelled from the specification.

Rust `HashSet<String>` fields are embedded as duplicate-free `List String`
with insert-if-absent semantics (`hsInsert`), which preserves exactly the
membership-level observations the code makes (`contains`, `insert`, iteration
for `wordlist_items`).  The `check`/`wordlist_items` precondition panic
(`break_if_not_compiled`) is embedded by returning `Option`: `none` models the
panic on an uncompiled dictionary.
-/

instance {ε : Type u} {α : Type v} [DecidableEq ε] [DecidableEq α] :
    DecidableEq (Except ε α) := fun x y =>
  match x, y with
  | Except.error a, Except.error b =>
    if h : a = b then isTrue (by rw [h])
    else isFalse (by intro he; cases he; exact h rfl)
  | Except.error _, Except.ok _ => isFalse (fun h => Except.noConfusion h)
  | Except.ok _, Except.error _ => isFalse (fun h => Except.noConfusion h)
  | Except.ok a, Except.ok b =>
    if h : a = b then isTrue (by rw [h])
    else isFalse (by intro he; cases he; exact h rfl)

/-- String split on a single separator character, as Rust `str::split(c)`:
`splitChar '/' "a/b"` is `["a", "b"]`, and a string without the separator
yields a single segment. -/
def splitCharAux (c : Char) : List Char → List Char → List (List Char)
  | [], acc => [acc.reverse]
  | x :: xs, acc =>
    if x = c then acc.reverse :: splitCharAux c xs []
    else splitCharAux c xs (x :: acc)

def splitChar (c : Char) (s : String) : List String :=
  (splitCharAux c s.data []).map (fun l => String.mk l)

def listIsPrefixOf : List Char → List Char → Bool
  | [], _ => true
  | _ :: _, [] => false
  | a :: as, b :: bs => a = b && listIsPrefixOf as bs

/-- Rust `str::starts_with`. -/
def strStartsWith (s p : String) : Bool :=
  listIsPrefixOf p.data s.data

/-- Rust `str::ends_with`. -/
def strEndsWith (s p : String) : Bool :=
  listIsPrefixOf p.data.reverse s.data.reverse

/-- Rust `str::contains(char)`. -/
def strContainsChar (s : String) (c : Char) : Bool :=
  s.data.contains c

/-- Drop the first `n` characters of a string. -/
def strDropLeft (s : String) (n : Nat) : String :=
  String.mk (s.data.drop n)

/-- Drop the last `n` characters of a string. -/
def strDropRight (s : String) (n : Nat) : String :=
  String.mk (s.data.take (s.data.length - n))

/-- Rust `str::trim_start_matches("*")`: remove every leading `*`. -/
def trimStars (s : String) : String :=
  String.mk (s.data.dropWhile (fun c => c = '*'))

/-- Rust `str::lines()`: split at `\n`, recognise `\r\n` line endings (the
`\r` belongs to the terminator), and do not yield a final empty line for a
trailing newline. -/
def rustLinesAux : List String → List String
  | [] => []
  | [last] => if last = "" then [] else [last]
  | x :: rest =>
    (if strEndsWith x "\r" then strDropRight x 1 else x) :: rustLinesAux rest

def rustLines (s : String) : List String :=
  rustLinesAux (splitChar '\n' s)

/-- Kind of an affix rule: prefix (`pfx`) or suffix (`sfx`). -/
inductive AffixKind
  | pfx
  | sfx
deriving DecidableEq, Repr

/-- Modelled from the spec: an `AffixRule` identifies a transformation — a
flag token, a kind (prefix or suffix), a *strip* substring removed from the
root's matching end, an *add* substring appended/prepended, a *condition*
(a positional pattern the root must satisfy at the affected end; `"."` means
the rule always fires), and whether the rule may combine with a rule of the
other kind (the affix document's declared combination policy).  The `Affix`
source file is not in the repository snapshot; fields follow spec §3. -/
structure AffixRule where
  ident : Char
  kind : AffixKind
  combinable : Bool
  strip : String
  add : String
  condition : String
deriving DecidableEq, Repr

/-- Modelled from the spec: the `Affix` configuration — the parsed rules
(a flat list carrying their flag tokens, as the `dictionary.rs` helper
`generate_wordlist_from_afx` iterates `affix.affix_rules` and tests
`tokens.contains(&rule.ident)`) plus the nosuggest flag token. -/
structure Affix where
  affix_rules : List AffixRule
  nosuggest_flag : Char
deriving DecidableEq, Repr

def Affix.new : Affix :=
  { affix_rules := [], nosuggest_flag := '!' }

/-- Modelled from the spec: condition check of an affix rule at the affected
end of the word (`"."` = always; otherwise a required start/end substring). -/
def condMatches (cond : String) (kind : AffixKind) (w : String) : Bool :=
  if cond = "." then true
  else
    match kind with
    | AffixKind.pfx => strStartsWith w cond
    | AffixKind.sfx => strEndsWith w cond

/-- Modelled from the spec: apply one affix rule to a word.  If the condition
fails (or the strip substring is absent at the affected end) the rule
contributes nothing; otherwise strip then prepend/append the add string. -/
def AffixRule.applyTo (r : AffixRule) (w : String) : Option String :=
  if condMatches r.condition r.kind w then
    match r.kind with
    | AffixKind.pfx =>
      if strStartsWith w r.strip then some (r.add ++ strDropLeft w r.strip.length)
      else none
    | AffixKind.sfx =>
      if strEndsWith w r.strip then some (strDropRight w r.strip.length ++ r.add)
      else none
  else none

def listFlatMap (f : α → List β) : List α → List β
  | [] => []
  | x :: xs => f x ++ listFlatMap f xs

/-- Modelled from the spec (§4.1 expansion contract): the root word itself
comes first; then, in flagstring order and rule registration order, every
applicable rule's derived spelling; then, for combinable rules, each
prefix-derived word further transformed by each combinable suffix rule
(the compounded spellings, in flag order).  Unknown flag tokens contribute
nothing. -/
def Affix.create_affixed_words (a : Affix) (rootword : String) (keys : String) : List String :=
  let active := listFlatMap (fun c => a.affix_rules.filter (fun r => r.ident = c)) keys.data
  let singles := active.filterMap (fun r => r.applyTo rootword)
  let pfxApps :=
    (active.filter (fun r => r.kind = AffixKind.pfx && r.combinable)).filterMap
      (fun r => r.applyTo rootword)
  let sfxRules := active.filter (fun r => r.kind = AffixKind.sfx && r.combinable)
  let compounds := listFlatMap (fun w => sfxRules.filterMap (fun r => r.applyTo w)) pfxApps
  rootword :: (singles ++ compounds)

/-- Modelled from the spec: one directive line of the affix document.
The concrete syntax is format-specific (spec §6 leaves it to the parser); we
use `PFX f cross strip add cond`, `SFX f cross strip add cond` and
`NOSUGGEST f`, with `0` for an empty strip, `.` for the always-true
condition, and `cross` = `Y`/`N` for the combination policy.  A malformed
line is a parse error. -/
def parseAffixLine (acc : Affix) (line : String) : Option Affix :=
  let toks := (splitChar ' ' line).filter (fun t => t ≠ "")
  match toks with
  | [] => some acc
  | ["NOSUGGEST", f] =>
    match f.data with
    | [c] => some { acc with nosuggest_flag := c }
    | _ => none
  | [kw, f, cross, strip, add, cond] =>
    match f.data with
    | [c] =>
      if kw = "PFX" ∨ kw = "SFX" then
        if cross = "Y" ∨ cross = "N" then
          some { acc with affix_rules := acc.affix_rules ++
            [{ ident := c,
               kind := if kw = "PFX" then AffixKind.pfx else AffixKind.sfx,
               combinable := cross = "Y",
               strip := if strip = "0" then "" else strip,
               add := add,
               condition := cond }] }
        else none
      else none
    | _ => none
  | _ => none

def parseAffixDoc : Affix → List String → Option Affix
  | acc, [] => some acc
  | acc, l :: rest =>
    match parseAffixLine acc l with
    | some acc' => parseAffixDoc acc' rest
    | none => none

/-- Modelled from the spec: `Affix::load_from_str` (source not in the
snapshot).  Loading is atomic: a parse failure leaves the prior configuration
untouched and reports an error; success fully replaces the configuration. -/
def Affix.load_from_str (a : Affix) (s : String) : Affix × Except String Unit :=
  match parseAffixDoc Affix.new (rustLines s) with
  | some a' => (a', Except.ok ())
  | none => (a, Except.error "affix parse error")

/-- The main spellchecking object (`Dictionary` in `dictionary.rs`).
`HashSet<String>` fields are duplicate-free lists; `compiled` is the
dirty/clean indicator. -/
structure Dictionary where
  affix : Affix
  wordlist : List String
  wordlist_nosuggest : List String
  wordlist_forbidden : List String
  raw_wordlist : List String
  raw_wordlist_personal : List String
  compiled : Bool
deriving DecidableEq, Repr

def Dictionary.new : Dictionary :=
  { affix := Affix.new,
    wordlist := [],
    wordlist_nosuggest := [],
    wordlist_forbidden := [],
    raw_wordlist := [],
    raw_wordlist_personal := [],
    compiled := false }

def Dictionary.load_affix_from_str (d : Dictionary) (s : String) :
    Dictionary × Except String Unit :=
  let r := d.affix.load_from_str s
  ({ d with compiled := false, affix := r.1 }, r.2)

def Dictionary.load_dictionar_from_str (d : Dictionary) (s : String) : Dictionary :=
  { d with compiled := false, raw_wordlist := (rustLines s).drop 1 }

def Dictionary.load_personal_dict_from_str (d : Dictionary) (s : String) : Dictionary :=
  { d with compiled := false, raw_wordlist_personal := rustLines s }

/-- `HashSet::insert`: add the element if it is not already present. -/
def hsInsert (s : List String) (x : String) : List String :=
  if x ∈ s then s else s ++ [x]

/-- The `iter_to_hashset` helper of `dictionary.rs`: insert every item. -/
def iter_to_hashset (items : List String) (hs : List String) : List String :=
  items.foldl hsInsert hs

/-- First loop of `Dictionary::compile`: for each personal entry carrying a
`/otherword` cross-reference, require some raw wordlist entry to start with
`otherword ++ "/"` (after trimming leading `*` from that pattern); the first
entry whose reference is not found aborts with `"Root word not found"`.  The
source also computes a `forbidden` marker from a leading `*` but never uses
it. -/
def checkPersonal (raw : List String) : List String → Except String Unit
  | [] => Except.ok ()
  | word :: rest =>
    match (splitChar '/' word)[1]? with
    | some rootword =>
      if raw.any (fun s => strStartsWith s (trimStars (rootword ++ "/")))
      then checkPersonal raw rest
      else Except.error "Root word not found"
    | none => checkPersonal raw rest

/-- Second loop body of `Dictionary::compile`, processing one raw wordlist
entry against the accumulated `(wordlist, wordlist_nosuggest)` pair. -/
def compile_step (a : Affix) (p : List String × List String) (word : String) :
    List String × List String :=
  let split := splitChar '/' word
  let rootword := split.headD ""
  match split[1]? with
  | some rule_keys =>
    let wl := a.create_affixed_words rootword rule_keys
    if strContainsChar rule_keys a.nosuggest_flag
    then (p.1, iter_to_hashset wl p.2)
    else (iter_to_hashset wl p.1, p.2)
  | none => (hsInsert p.1 rootword, p.2)

/-- `Dictionary::compile`: validate personal cross-references (aborting with
the error and no state change on failure), then fold every raw wordlist entry
into the accept sets starting from their current contents, and mark the
dictionary compiled. -/
def Dictionary.compile (d : Dictionary) : Dictionary × Except String Unit :=
  match checkPersonal d.raw_wordlist d.raw_wordlist_personal with
  | Except.error e => (d, Except.error e)
  | Except.ok _ =>
    let st := d.raw_wordlist.foldl (compile_step d.affix) (d.wordlist, d.wordlist_nosuggest)
    ({ d with wordlist := st.1, wordlist_nosuggest := st.2, compiled := true },
     Except.ok ())

/-- `Dictionary::check_no_break`: not forbidden, and present in an accept
set. -/
def Dictionary.check_no_break (d : Dictionary) (s : String) : Bool :=
  (!(decide (s ∈ d.wordlist_forbidden))) &&
    (decide (s ∈ d.wordlist) || decide (s ∈ d.wordlist_nosuggest))

/-- `Dictionary::check`: `none` models the `break_if_not_compiled` panic on
an uncompiled dictionary. -/
def Dictionary.check (d : Dictionary) (s : String) : Option Bool :=
  if d.compiled = true then some (d.check_no_break s) else none

/-- `Dictionary::wordlist_items`: sorted contents of `wordlist`; `none`
models the precondition panic. -/
def Dictionary.wordlist_items (d : Dictionary) : Option (List String) :=
  if d.compiled = true then some (d.wordlist.insertionSort (fun a b => a ≤ b)) else none

def ruleA : AffixRule :=
  { ident := 'A', kind := AffixKind.pfx, combinable := true,
    strip := "", add := "re", condition := "." }

def ruleN : AffixRule :=
  { ident := 'N', kind := AffixKind.sfx, combinable := true,
    strip := "", add := "en", condition := "." }

def testAffix : Affix :=
  { affix_rules := [ruleA, ruleN], nosuggest_flag := '!' }

/-- Spelling `w` is routed into `wordlist` by the raw entry `entry` in the
second compile loop: either the entry carries a flagstring without the
nosuggest token and `w` is one of its affix expansions, or the entry has no
flagstring and `w` is its root word. -/
def entryAccepts (a : Affix) (entry w : String) : Prop :=
  match (splitChar '/' entry)[1]? with
  | some keys =>
    strContainsChar keys a.nosuggest_flag = false ∧
      w ∈ a.create_affixed_words ((splitChar '/' entry).headD "") keys
  | none => w = (splitChar '/' entry).headD ""

/-- Spelling `w` is routed into `wordlist_nosuggest` by the raw entry
`entry`: the entry carries a flagstring containing the nosuggest token and
`w` is one of its affix expansions. -/
def entryNosuggests (a : Affix) (entry w : String) : Prop :=
  match (splitChar '/' entry)[1]? with
  | some keys =>
    strContainsChar keys a.nosuggest_flag = true ∧
      w ∈ a.create_affixed_words ((splitChar '/' entry).headD "") keys
  | none => False

theorem mem_hsInsert {s : List String} {x y : String} :
    y ∈ hsInsert s x ↔ y ∈ s ∨ y = x := by
  unfold hsInsert
  by_cases h : x ∈ s
  · simp only [if_pos h]
    constructor
    · exact Or.inl
    · rintro (hy | rfl)
      · exact hy
      · exact h
  · simp [if_neg h]

theorem hsInsert_eq_of_mem {s : List String} {x : String} (h : x ∈ s) :
    hsInsert s x = s := by
  simp [hsInsert, h]

theorem mem_iter_to_hashset {l s : List String} {y : String} :
    y ∈ iter_to_hashset l s ↔ y ∈ s ∨ y ∈ l := by
  induction l generalizing s with
  | nil => simp [iter_to_hashset]
  | cons x xs ih =>
    show y ∈ iter_to_hashset xs (hsInsert s x) ↔ _
    rw [ih, mem_hsInsert]
    simp only [List.mem_cons]
    tauto

theorem iter_to_hashset_eq_of_subset {l s : List String} (h : ∀ x ∈ l, x ∈ s) :
    iter_to_hashset l s = s := by
  induction l generalizing s with
  | nil => rfl
  | cons x xs ih =>
    show iter_to_hashset xs (hsInsert s x) = s
    rw [hsInsert_eq_of_mem (h x (List.mem_cons_self x xs))]
    exact ih (fun y hy => h y (List.mem_cons_of_mem x hy))

theorem mem_compile_step_fst {a : Affix} {p : List String × List String} {e w : String} :
    w ∈ (compile_step a p e).1 ↔ w ∈ p.1 ∨ entryAccepts a e w := by
  unfold compile_step entryAccepts
  cases h : (splitChar '/' e)[1]? with
  | none => simp [h, mem_hsInsert]
  | some keys =>
    by_cases hc : strContainsChar keys a.nosuggest_flag = true
    · simp [h, hc]
    · simp only [Bool.not_eq_true] at hc
      simp [h, hc, mem_iter_to_hashset]

theorem mem_compile_step_snd {a : Affix} {p : List String × List String} {e w : String} :
    w ∈ (compile_step a p e).2 ↔ w ∈ p.2 ∨ entryNosuggests a e w := by
  unfold compile_step entryNosuggests
  cases h : (splitChar '/' e)[1]? with
  | none => simp [h]
  | some keys =>
    by_cases hc : strContainsChar keys a.nosuggest_flag = true
    · simp [h, hc, mem_iter_to_hashset]
    · simp only [Bool.not_eq_true] at hc
      simp [h, hc]

theorem mem_foldl_compile_fst {a : Affix} {raw : List String}
    {p : List String × List String} {w : String} :
    w ∈ (raw.foldl (compile_step a) p).1 ↔
      w ∈ p.1 ∨ ∃ e ∈ raw, entryAccepts a e w := by
  induction raw generalizing p with
  | nil => simp
  | cons x xs ih =>
    simp only [List.foldl_cons]
    rw [ih, mem_compile_step_fst]
    simp only [List.exists_mem_cons_iff]
    tauto

theorem mem_foldl_compile_snd {a : Affix} {raw : List String}
    {p : List String × List String} {w : String} :
    w ∈ (raw.foldl (compile_step a) p).2 ↔
      w ∈ p.2 ∨ ∃ e ∈ raw, entryNosuggests a e w := by
  induction raw generalizing p with
  | nil => simp
  | cons x xs ih =>
    simp only [List.foldl_cons]
    rw [ih, mem_compile_step_snd]
    simp only [List.exists_mem_cons_iff]
    tauto

theorem compile_step_eq_self {a : Affix} {p : List String × List String} {e : String}
    (h1 : ∀ w, entryAccepts a e w → w ∈ p.1)
    (h2 : ∀ w, entryNosuggests a e w → w ∈ p.2) :
    compile_step a p e = p := by
  unfold compile_step
  cases h : (splitChar '/' e)[1]? with
  | none =>
    simp only [h]
    rw [hsInsert_eq_of_mem (h1 _ (by unfold entryAccepts; rw [h]))]
  | some keys =>
    by_cases hc : strContainsChar keys a.nosuggest_flag = true
    · simp only [h, hc, if_pos]
      rw [iter_to_hashset_eq_of_subset
        (fun x hx => h2 x (by unfold entryNosuggests; rw [h]; exact ⟨hc, hx⟩))]
    · simp only [Bool.not_eq_true] at hc
      simp only [h, hc, Bool.false_eq_true, if_false]
      rw [iter_to_hashset_eq_of_subset
        (fun x hx => h1 x (by unfold entryAccepts; rw [h]; exact ⟨hc, hx⟩))]

theorem foldl_compile_eq_self {a : Affix} {raw : List String}
    {p : List String × List String}
    (h1 : ∀ e ∈ raw, ∀ w, entryAccepts a e w → w ∈ p.1)
    (h2 : ∀ e ∈ raw, ∀ w, entryNosuggests a e w → w ∈ p.2) :
    raw.foldl (compile_step a) p = p := by
  induction raw with
  | nil => rfl
  | cons x xs ih =>
    simp only [List.foldl_cons]
    rw [compile_step_eq_self (h1 x (List.mem_cons_self x xs)) (h2 x (List.mem_cons_self x xs))]
    exact ih (fun e he => h1 e (List.mem_cons_of_mem x he))
      (fun e he => h2 e (List.mem_cons_of_mem x he))

theorem compile_ok_shape {d d' : Dictionary} {u : Unit}
    (h : d.compile = (d', Except.ok u)) :
    checkPersonal d.raw_wordlist d.raw_wordlist_personal = Except.ok () ∧
    d' = { d with
      wordlist :=
        (d.raw_wordlist.foldl (compile_step d.affix) (d.wordlist, d.wordlist_nosuggest)).1,
      wordlist_nosuggest :=
        (d.raw_wordlist.foldl (compile_step d.affix) (d.wordlist, d.wordlist_nosuggest)).2,
      compiled := true } := by
  unfold Dictionary.compile at h
  cases hp : checkPersonal d.raw_wordlist d.raw_wordlist_personal with
  | error e => rw [hp] at h; exact absurd (congrArg Prod.snd h) (by simp)
  | ok v =>
    rw [hp] at h
    exact ⟨rfl, (congrArg Prod.fst h).symm⟩

theorem compile_ok_compiled {d d' : Dictionary} {u : Unit}
    (h : d.compile = (d', Except.ok u)) : d'.compiled = true := by
  rw [(compile_ok_shape h).2]

/-- Concrete dictionary state with a word in both an accept set and the
forbidden set; used to witness the query-precedence theorem. -/
def bothListsDict : Dictionary :=
  { Dictionary.new with compiled := true, wordlist := ["a"], wordlist_forbidden := ["a"] }

/-- C1: for every compiled dictionary and every word `w`, `check w` returns
true iff `w` is absent from `wordlist_forbidden` and present in `wordlist` or
`wordlist_nosuggest`; in particular a word present in `wordlist_forbidden` is
rejected even when it is also present in `wordlist`. -/
theorem c1_check_iff (d : Dictionary) (h : d.compiled = true) (w : String) :
    (d.check w = some true ↔
      (w ∉ d.wordlist_forbidden ∧ (w ∈ d.wordlist ∨ w ∈ d.wordlist_nosuggest))) ∧
    (w ∈ d.wordlist_forbidden → d.check w = some false) := by
  constructor
  · simp [Dictionary.check, Dictionary.check_no_break, h]
  · intro hm
    simp [Dictionary.check, Dictionary.check_no_break, h, hm]

/-- Witness for C1 at a concrete compiled dictionary whose word `"a"` sits in
both `wordlist` and `wordlist_forbidden`. -/
theorem c1_check_iff_witness :
    ((bothListsDict.check "a" = some true ↔
      ("a" ∉ bothListsDict.wordlist_forbidden ∧
        ("a" ∈ bothListsDict.wordlist ∨ "a" ∈ bothListsDict.wordlist_nosuggest))) ∧
    ("a" ∈ bothListsDict.wordlist_forbidden → bothListsDict.check "a" = some false)) :=
  c1_check_iff bothListsDict rfl "a"

/-- C2 (code bug): `compile` never populates `wordlist_forbidden`.  With the
personal entry `"*badword"` it succeeds but leaves the forbidden set empty,
both with an empty main wordlist and with `"badword"` in the main wordlist —
and in the latter case `check "badword"` even returns true. -/
theorem c2_forbidden_never_populated :
    (((Dictionary.new.load_personal_dict_from_str "*badword").compile).2 = Except.ok () ∧
     ((Dictionary.new.load_personal_dict_from_str "*badword").compile).1.wordlist_forbidden = [] ∧
     ((Dictionary.new.load_personal_dict_from_str "*badword").compile).1.check "badword"
       = some false) ∧
    ((((Dictionary.new.load_dictionar_from_str "1\nbadword").load_personal_dict_from_str
        "*badword").compile).2 = Except.ok () ∧
     (((Dictionary.new.load_dictionar_from_str "1\nbadword").load_personal_dict_from_str
        "*badword").compile).1.wordlist_forbidden = [] ∧
     (((Dictionary.new.load_dictionar_from_str "1\nbadword").load_personal_dict_from_str
        "*badword").compile).1.check "badword" = some true) := by
  decide

/-- Dictionary with the test affix, a main wordlist entry `root/AN` and the
personal cross-reference entry `newword/root`. -/
def crossRefDict : Dictionary :=
  (({ Dictionary.new with affix := testAffix }).load_dictionar_from_str
    "1\nroot/AN").load_personal_dict_from_str "newword/root"

/-- C3 (code bug): `compile` validates the cross-reference `newword/root`
but never expands or inserts the personal entry's own word: compilation
succeeds, `root`'s own expansions are accepted, yet every expansion of
`newword` under the referenced flags `AN` is rejected. -/
theorem c3_personal_entry_not_expanded :
    ((crossRefDict.compile).2 = Except.ok () ∧
     (crossRefDict.compile).1.check "root" = some true ∧
     (crossRefDict.compile).1.check "rerooten" = some true) ∧
    ((crossRefDict.compile).1.check "newword" = some false ∧
     (crossRefDict.compile).1.check "renewword" = some false ∧
     (crossRefDict.compile).1.check "newworden" = some false ∧
     (crossRefDict.compile).1.check "renewworden" = some false) := by
  decide

/-- Personal entry `word/root` against a raw wordlist whose only entry is the
bare root `root` (no flagstring). -/
def bareRootDict : Dictionary :=
  (Dictionary.new.load_dictionar_from_str "1\nroot").load_personal_dict_from_str
    "word/root"

/-- The same personal entry against `root/A`, i.e. the root carries a
flagstring. -/
def flaggedRootDict : Dictionary :=
  (Dictionary.new.load_dictionar_from_str "1\nroot/A").load_personal_dict_from_str
    "word/root"

/-- C4 (code bug): cross-reference resolution scans for entries starting with
`"root/"`, so an exact-root entry *without* a flagstring is not found and
`compile` fails with the generic message `"Root word not found"` (the missing
word is not named), leaving the state unchanged; the same reference resolves
once the root carries a flagstring. -/
theorem c4_bare_exact_root_rejected :
    bareRootDict.compile = (bareRootDict, Except.error "Root word not found") ∧
    (flaggedRootDict.compile).2 = Except.ok () := by
  decide

/-- Result of compiling a wordlist containing only `foo`. -/
def fooCompiled : Dictionary :=
  ((Dictionary.new.load_dictionar_from_str "1\nfoo").compile).1

/-- `fooCompiled` reloaded with a wordlist containing only `bar` and
recompiled. -/
def fooThenBarCompiled : Dictionary :=
  ((fooCompiled.load_dictionar_from_str "1\nbar").compile).1

/-- A fresh dictionary compiled from the `bar`-only wordlist. -/
def freshBarCompiled : Dictionary :=
  ((Dictionary.new.load_dictionar_from_str "1\nbar").compile).1

/-- C5 (code bug): `compile` never clears the output sets, so spellings from
an earlier compile of different raw inputs survive: after recompiling with a
wordlist containing only `bar`, the stale `foo` is still accepted, whereas a
fresh dictionary with the same raw inputs rejects it. -/
theorem c5_stale_spellings_survive :
    fooThenBarCompiled.wordlist = ["foo", "bar"] ∧
    fooThenBarCompiled.check "foo" = some true ∧
    freshBarCompiled.wordlist = ["bar"] ∧
    freshBarCompiled.check "foo" = some false := by
  decide

/-- C9: `create_affixed_words` returns the root itself first and derived
spellings in flag order: an empty flagstring yields exactly the root, and
with the prefix rule `A` (strip empty, add `re`, condition always) and the
suffix rule `N` (strip empty, add `en`) the expansions of `xxx` under `A`,
`N` and `AN` are exactly the listed sequences, in that order. -/
theorem c9_create_affixed_words_order :
    (∀ (a : Affix) (r : String), a.create_affixed_words r "" = [r]) ∧
    testAffix.create_affixed_words "xxx" "A" = ["xxx", "rexxx"] ∧
    testAffix.create_affixed_words "xxx" "N" = ["xxx", "xxxen"] ∧
    testAffix.create_affixed_words "xxx" "AN" = ["xxx", "rexxx", "xxxen", "rexxxen"] :=
  ⟨fun _ _ => rfl, by decide, by decide, by decide⟩

/-- C6: a successful `compile` starting from empty accept sets routes exactly
the per-entry contributions: a spelling lands in `wordlist` iff some raw
entry accepts it (its affix expansion under a flagstring without the
nosuggest token, or its bare root for an entry without a flagstring), and in
`wordlist_nosuggest` iff some raw entry carrying the nosuggest token expands
to it. -/
theorem c6_compile_routing (d d' : Dictionary)
    (hwl : d.wordlist = []) (hns : d.wordlist_nosuggest = [])
    (h : d.compile = (d', Except.ok ())) (w : String) :
    (w ∈ d'.wordlist ↔ ∃ e ∈ d.raw_wordlist, entryAccepts d.affix e w) ∧
    (w ∈ d'.wordlist_nosuggest ↔ ∃ e ∈ d.raw_wordlist, entryNosuggests d.affix e w) := by
  obtain ⟨-, hshape⟩ := compile_ok_shape h
  subst hshape
  constructor
  · show w ∈ (d.raw_wordlist.foldl (compile_step d.affix)
        (d.wordlist, d.wordlist_nosuggest)).1 ↔ _
    rw [mem_foldl_compile_fst]
    simp [hwl]
  · show w ∈ (d.raw_wordlist.foldl (compile_step d.affix)
        (d.wordlist, d.wordlist_nosuggest)).2 ↔ _
    rw [mem_foldl_compile_snd]
    simp [hns]

/-- Raw dictionary used to witness the routing and idempotence theorems at a
concrete input. -/
def fooLoaded : Dictionary := Dictionary.new.load_dictionar_from_str "1\nfoo"

/-- Witness for C6 at the concrete raw wordlist `["foo"]`. -/
theorem c6_compile_routing_witness :
    (("foo" ∈ ((fooLoaded.compile).1).wordlist ↔
       ∃ e ∈ fooLoaded.raw_wordlist, entryAccepts fooLoaded.affix e "foo") ∧
     ("foo" ∈ ((fooLoaded.compile).1).wordlist_nosuggest ↔
       ∃ e ∈ fooLoaded.raw_wordlist, entryNosuggests fooLoaded.affix e "foo")) :=
  c6_compile_routing fooLoaded ((fooLoaded.compile).1) rfl rfl rfl "foo"

theorem compile_fixed (x : Dictionary)
    (hp : checkPersonal x.raw_wordlist x.raw_wordlist_personal = Except.ok ())
    (hf : x.raw_wordlist.foldl (compile_step x.affix) (x.wordlist, x.wordlist_nosuggest)
      = (x.wordlist, x.wordlist_nosuggest))
    (hc : x.compiled = true) :
    x.compile = (x, Except.ok ()) := by
  unfold Dictionary.compile
  rw [hp]
  show ({ x with
    wordlist := (x.raw_wordlist.foldl (compile_step x.affix)
      (x.wordlist, x.wordlist_nosuggest)).1,
    wordlist_nosuggest := (x.raw_wordlist.foldl (compile_step x.affix)
      (x.wordlist, x.wordlist_nosuggest)).2,
    compiled := true }, Except.ok ()) = (x, Except.ok ())
  rw [hf]
  obtain ⟨af, wl, ns, fb, raw, rawp, c⟩ := x
  simp only at hc
  subst hc
  rfl

/-- C7: `compile` is idempotent with respect to observable queries — if
`compile` on `d` produced `(d1, r)`, then compiling `d1` again (with no
intervening loader calls) returns the same state and result, so `check` and
`wordlist_items` answer identically after one or two compiles. -/
theorem c7_compile_idempotent (d d1 : Dictionary) (r : Except String Unit)
    (h : d.compile = (d1, r)) :
    d1.compile = (d1, r) ∧
    ((d1.compile).1.check = d1.check) ∧
    ((d1.compile).1.wordlist_items = d1.wordlist_items) := by
  have main : d1.compile = (d1, r) := by
    cases r with
    | ok u =>
      cases u
      obtain ⟨hp, hshape⟩ := compile_ok_shape h
      subst hshape
      apply compile_fixed
      · exact hp
      · apply foldl_compile_eq_self
        · intro e he w hw
          exact mem_foldl_compile_fst.mpr (Or.inr ⟨e, he, hw⟩)
        · intro e he w hw
          exact mem_foldl_compile_snd.mpr (Or.inr ⟨e, he, hw⟩)
      · rfl
    | error e =>
      unfold Dictionary.compile at h
      cases hp : checkPersonal d.raw_wordlist d.raw_wordlist_personal with
      | ok v => rw [hp] at h; exact absurd (congrArg Prod.snd h) (by simp)
      | error e' =>
        rw [hp] at h
        injection h with hd hr
        subst hd
        unfold Dictionary.compile
        rw [hp, hr]
  exact ⟨main, by rw [main], by rw [main]⟩

/-- Witness for C7 at the concrete raw wordlist `["foo"]`. -/
theorem c7_compile_idempotent_witness :
    ((fooLoaded.compile).1.compile = ((fooLoaded.compile).1, (fooLoaded.compile).2) ∧
     (((fooLoaded.compile).1.compile).1.check = (fooLoaded.compile).1.check) ∧
     (((fooLoaded.compile).1.compile).1.wordlist_items
       = (fooLoaded.compile).1.wordlist_items)) :=
  c7_compile_idempotent fooLoaded ((fooLoaded.compile).1) ((fooLoaded.compile).2) rfl

/-- Empty dictionary after a successful `compile`; a concrete compiled state
for the loader-dirtying witnesses. -/
def compiledEmpty : Dictionary := (Dictionary.new.compile).1

/-- C8: after a successful compile, any loader call (`load_affix_from_str`,
`load_dictionar_from_str`, `load_personal_dict_from_str`) returns the
dictionary to the dirty state, so `check` and `wordlist_items` fail their
compiled-state precondition (modelled as `none`) — and as soon as some
`compile` succeeds again, both queries answer once more. -/
theorem c8_loaders_dirty (d : Dictionary) (hc : d.compiled = true) (s w : String) :
    ((d.load_affix_from_str s).1.check w = none ∧
     (d.load_affix_from_str s).1.wordlist_items = none) ∧
    ((d.load_dictionar_from_str s).check w = none ∧
     (d.load_dictionar_from_str s).wordlist_items = none) ∧
    ((d.load_personal_dict_from_str s).check w = none ∧
     (d.load_personal_dict_from_str s).wordlist_items = none) ∧
    (∀ d1 d2 : Dictionary, d1.compile = (d2, Except.ok ()) →
      (d2.check w).isSome = true ∧ (d2.wordlist_items).isSome = true) := by
  refine ⟨⟨rfl, rfl⟩, ⟨rfl, rfl⟩, ⟨rfl, rfl⟩, ?_⟩
  intro d1 d2 h12
  have hcc := compile_ok_compiled h12
  constructor
  · simp [Dictionary.check, hcc]
  · simp [Dictionary.wordlist_items, hcc]

/-- Witness for C8 at the concrete compiled empty dictionary. -/
theorem c8_loaders_dirty_witness :
    (((compiledEmpty.load_affix_from_str "x").1.check "y" = none ∧
      (compiledEmpty.load_affix_from_str "x").1.wordlist_items = none) ∧
     ((compiledEmpty.load_dictionar_from_str "x").check "y" = none ∧
      (compiledEmpty.load_dictionar_from_str "x").wordlist_items = none) ∧
     ((compiledEmpty.load_personal_dict_from_str "x").check "y" = none ∧
      (compiledEmpty.load_personal_dict_from_str "x").wordlist_items = none) ∧
     (∀ d1 d2 : Dictionary, d1.compile = (d2, Except.ok ()) →
       (d2.check "y").isSome = true ∧ (d2.wordlist_items).isSome = true)) :=
  c8_loaders_dirty compiledEmpty rfl "x" "y"

/-- C10: `load_affix_from_str` clears the compiled flag before attempting the
parse, so even a failing affix load leaves the dictionary dirty: a previously
compiled dictionary's `check` and `wordlist_items` hit the precondition
(`none`) after the failed load. -/
theorem c10_failed_affix_load_dirties (d : Dictionary) (s e : String)
    (hc : d.compiled = true)
    (he : (d.load_affix_from_str s).2 = Except.error e) (w : String) :
    (d.load_affix_from_str s).1.compiled = false ∧
    (d.load_affix_from_str s).1.check w = none ∧
    (d.load_affix_from_str s).1.wordlist_items = none :=
  ⟨rfl, rfl, rfl⟩

/-- Witness for C10: the document `"BAD"` fails the modelled affix parse, and
the previously compiled dictionary is dirty afterwards. -/
theorem c10_failed_affix_load_dirties_witness :
    ((compiledEmpty.load_affix_from_str "BAD").1.compiled = false ∧
     (compiledEmpty.load_affix_from_str "BAD").1.check "y" = none ∧
     (compiledEmpty.load_affix_from_str "BAD").1.wordlist_items = none) :=
  c10_failed_affix_load_dirties compiledEmpty "BAD" "affix parse error" rfl rfl "y"
